import Mathlib

/-!
Verification development for the TUF-style trust-metadata resolution core
(`tuf/repo.go`): role-name validation, role/type consistency, repository
handle construction, fetch options, and the delegated-targets resolution
algorithm (`targetTreeBuilder` / `getDelegatedTarget`).

The Go source is embedded shallowly: pure helpers become Lean functions,
the stateful role fetcher becomes explicit state passing, Go errors become
explicit result values.  Pieces of the repository that are not in
`src/tuf/repo.go` (the `Targets`/`RootTarget` data declarations, the
`RootTarget.append` method, the `errTargetSeen` sentinel and the concrete
`roleFetcher` implementation, the role-name constants) are modelled from
the spec, as marked on each definition.
-/

/-! ## Data model

`Targets` stands for the parsed targets-role metadata.  Only the two
components the resolver reads are kept:
`Signed.Targets` (target path -> file-integrity record, kept as an
association list; Go iterates the map in arbitrary order but its keys are
unique, so the resolver's observable result does not depend on the order)
and `Signed.Delegations.Roles[i].Name` (the declared delegation order). -/

/-- Opaque file-integrity record (the `FimMap` value type). -/
abbrev Fim := String

/-- Modelled from the spec: the targets-role metadata envelope, restricted
to the fields the resolver consumes (`Signed.Targets` as `paths`,
`Signed.Delegations.Roles[].Name` as `delegations`). -/
structure Targets where
  paths : List (String × Fim)
  delegations : List String
deriving DecidableEq, Repr, Inhabited

/-- Errors surfaced by a role fetch / by the resolution.
`targetSeen` embeds the `errTargetSeen` sentinel; `fetchFailed` stands for
every other (fatal) fetch error; `outOfFuel` is an artifact of the fuelled
embedding of the recursion and is proved unreachable below. -/
inductive TufErr where
  | targetSeen
  | fetchFailed (msg : String)
  | outOfFuel
deriving DecidableEq, Repr

/-- `RootTarget` from the Go source: the top-level `Targets` envelope, the
merged path-ownership map `paths` (`FimMap`, kept as an association list in
insertion order) and the role lookup `targetLookup` (kept as an association
list in insertion order, so that the visit order is part of the model). -/
structure RootTarget where
  topTargets : Targets
  paths : List (String × Fim)
  targetLookup : List (String × Targets)
deriving DecidableEq, Repr

/-- First-write-wins insertion into the path-ownership map: an entry whose
path is already claimed is dropped. -/
def fimInsert (m : List (String × Fim)) (e : String × Fim) : List (String × Fim) :=
  if m.any (fun q => q.1 = e.1) then m else m ++ [e]

/-- Modelled from the spec: `RootTarget.append` (not under `src/`) records
the visited role in the role lookup and merges its path claims into the
path-ownership map with first-write-wins precedence (spec §4.4 step 3d:
"record the delegate's entries (first-write-wins: if a path was already
claimed by a previously visited role, the new role's claim for that same
path is not recorded)"). -/
def RootTarget.append (rt : RootTarget) (roleName : String) (t : Targets) : RootTarget :=
  { rt with
    targetLookup := rt.targetLookup ++ [(roleName, t)]
    paths := t.paths.foldl fimInsert rt.paths }

/-- Modelled from the spec: the role-name constant `roleTargets`. -/
def roleTargets : String := "targets"

/-- `maxDelegationCount` from the Go source (`repo.go` line 21). -/
def maxDelegationCount : Nat := 50

/-- The delegation graph a resolution runs against: what the underlying
transport would return for each role name (`Except.error` standing for any
fatal transport/parse failure for that role). -/
abbrev FetchSpec := String → Except String Targets

/-- State owned by the role fetcher across one resolution run: the roles
fetched so far (in fetch order) and a ghost log of every fetch attempt and
its outcome (`none` = success), used only to state theorems. -/
structure FetchState where
  visited : List String
  trace : List (String × Option TufErr)
deriving DecidableEq, Repr

/-- Modelled from the spec: the `roleFetcher` implementation supplied to
`targetTreeBuilder` (not under `src/`).  Per spec §4.4 steps 3a-3b it
reports the `errTargetSeen` sentinel for a role that has already been
visited, and reports the same short-circuit sentinel once the number of
roles visited has reached `maxDelegationCount` (the remainder is to be
"treated as not visited rather than erroring", and the sentinel is the
only non-fatal signal in the traversal); otherwise it returns the role's
metadata or a fatal fetch error, recording a successful fetch in
`visited`. -/
def fetchRole (g : FetchSpec) (st : FetchState) (name : String) :
    Except TufErr Targets × FetchState :=
  if st.visited.contains name then
    (.error .targetSeen, { st with trace := st.trace ++ [(name, some .targetSeen)] })
  else if maxDelegationCount ≤ st.visited.length then
    (.error .targetSeen, { st with trace := st.trace ++ [(name, some .targetSeen)] })
  else
    match g name with
    | .error msg =>
        (.error (.fetchFailed msg),
         { st with trace := st.trace ++ [(name, some (.fetchFailed msg))] })
    | .ok t =>
        (.ok t, { visited := st.visited ++ [name], trace := st.trace ++ [(name, none)] })

/-- The `for _, role := range target.Signed.Delegations.Roles` loop of
`getDelegatedTarget` (`repo.go` lines 215-224), parameterized by the body
`step` (the recursive call).  The `errTargetSeen` result of a recursive
call is swallowed (`continue`, "prevent cycles"); every other error aborts
the loop (`return err`). -/
def delegationLoop
    (step : String → FetchState → RootTarget → Option TufErr × RootTarget × FetchState) :
    FetchState → RootTarget → List String → Option TufErr × RootTarget × FetchState
  | st, root, [] => (none, root, st)
  | st, root, name :: rest =>
    match step name st root with
    | (some .targetSeen, root', st') => delegationLoop step st' root' rest
    | (some (.fetchFailed m), root', st') => (some (.fetchFailed m), root', st')
    | (some .outOfFuel, root', st') => (some .outOfFuel, root', st')
    | (none, root', st') => delegationLoop step st' root' rest

/-- `getDelegatedTarget` (`repo.go` lines 209-226): fetch the role; on a
fetch error return it; otherwise `append` the role to the tree and run the
delegation loop over its declared delegations.  The Go recursion is
embedded with explicit fuel; the fetcher's delegation cap bounds the
recursion depth, and `outOfFuel` is proved unreachable for the fuel used
by `targetTreeBuilder` (see `getDelegatedTarget_post` below). -/
def getDelegatedTarget (g : FetchSpec) :
    Nat → FetchState → RootTarget → String → Option TufErr × RootTarget × FetchState
  | 0, st, root, _ => (some .outOfFuel, root, st)
  | fuel + 1, st, root, roleName =>
    match fetchRole g st roleName with
    | (.error e, st') => (some e, root, st')
    | (.ok target, st') =>
        delegationLoop (fun n s r => getDelegatedTarget g fuel s r n)
          st' (root.append roleName target) target.delegations

/-- The `for _, delegation := range root.Signed.Delegations.Roles` loop of
`targetTreeBuilder` (`repo.go` lines 200-205), parameterized by the body.
Unlike `delegationLoop`, it has no `errTargetSeen` case: any error returned
by `getDelegatedTarget` — the sentinel included — aborts the whole
resolution (`return nil, err`). -/
def topLevelLoop
    (step : String → FetchState → RootTarget → Option TufErr × RootTarget × FetchState) :
    FetchState → RootTarget → List String → Except TufErr RootTarget × FetchState
  | st, root, [] => (.ok root, st)
  | st, root, name :: rest =>
    match step name st root with
    | (some e, _, st') => (.error e, st')
    | (none, root', st') => topLevelLoop step st' root' rest

/-- Fuel handed to `getDelegatedTarget` by the embedding of
`targetTreeBuilder`; any value above `maxDelegationCount` is proved
sufficient (the recursion only deepens on a successful fetch, and the
fetcher performs at most `maxDelegationCount` successful fetches). -/
def builderFuel : Nat := maxDelegationCount + 1

/-- `targetTreeBuilder` (`repo.go` lines 188-207): fetch the top-level
`targets` role (a failure is returned as is), initialize the tree, `append`
the top-level role, then run the top-level delegation loop.  The final
fetcher state is returned alongside so that theorems can speak about the
roles visited and the fetch trace; the Go function returns only the
tree-or-error. -/
def targetTreeBuilder (g : FetchSpec) : Except TufErr RootTarget × FetchState :=
  match fetchRole g ⟨[], []⟩ roleTargets with
  | (.error e, st) => (.error e, st)
  | (.ok targ, st) =>
      let root : RootTarget := { topTargets := targ, paths := [], targetLookup := [] }
      let root := root.append roleTargets targ
      topLevelLoop (fun n s r => getDelegatedTarget g builderFuel s r n)
        st root targ.delegations

/-! ## Role-name validation (`roleRegex`, `validateRole`)

The Go constant `roleRegex` is
`^root$|^[1-9]*[0-9]+\.root$|^snapshot$|^timestamp$|^targets$` and
`validateRole` succeeds exactly when the whole string matches one of the
anchored alternatives (Go RE2 `^`/`$` anchor at text start/end).  The
language of the regex is embedded literally as `roleRegexLang`; the
executable matcher `roleRegexMatch` is proved equivalent below. -/

/-- A decimal digit, the character class `[0-9]` (code points 48-57). -/
def digitB (c : Char) : Bool := 48 ≤ c.toNat && c.toNat ≤ 57

/-- A nonzero decimal digit, the character class `[1-9]` (code points
49-57). -/
def nzDigitB (c : Char) : Bool := 49 ≤ c.toNat && c.toNat ≤ 57

/-- The language of the regex branch `^[1-9]*[0-9]+\.root$`, literally: a
possibly empty run of nonzero digits, then a nonempty run of digits, then
the literal `.root`, spanning the whole string. -/
def versionedRootLang (s : String) : Prop :=
  ∃ a b : List Char, a.all nzDigitB = true ∧ b ≠ [] ∧ b.all digitB = true ∧
    s.data = a ++ b ++ ('.' :: "root".data)

/-- The language of `roleRegex`: the union of its five anchored
alternatives. -/
def roleRegexLang (s : String) : Prop :=
  s = "root" ∨ versionedRootLang s ∨ s = "snapshot" ∨ s = "timestamp" ∨ s = "targets"

/-- Executable matcher for the `^[1-9]*[0-9]+\.root$` branch: the maximal
leading digit run must be nonempty and the remainder must be exactly
`.root` (equivalent to the regex language, see
`matchVersionedRoot_eq_true_iff`). -/
def matchVersionedRoot (s : String) : Bool :=
  decide (s.data.takeWhile digitB ≠ [] ∧ s.data.dropWhile digitB = '.' :: "root".data)

/-- Executable matcher for `roleRegex` (the embedding of
`regexp.MustCompile(roleRegex).MatchString`). -/
def roleRegexMatch (s : String) : Bool :=
  s == "root" || matchVersionedRoot s || s == "snapshot" || s == "timestamp" || s == "targets"

/-- Go's `%q` formatting of a plain string (none of the strings involved
here need escaping). -/
def quoteGo (s : String) : String := "\"" ++ s ++ "\""

/-- `validateRole` (`repo.go` lines 143-148): succeed when the role name
matches `roleRegex`, otherwise fail with the `%q is not a valid role`
error carrying the rejected string. -/
def validateRole (r : String) : Except String Unit :=
  if roleRegexMatch r then .ok () else .error (quoteGo r ++ " is not a valid role")

/-! ## Role/type consistency (`isRoleCorrect`) -/

/-- The concrete dynamic type of the `interface{}` value handed to
`isRoleCorrect`.  Go's type switch treats `Root` and `*Root` alike (one
case clause), so value and pointer collapse into one constructor;
`otherValue` stands for every other dynamic type (no case matches, `hit`
stays false). -/
inductive FetchedValue where
  | rootValue
  | targetsValue
  | timestampValue
  | snapshotValue
  | otherValue
deriving DecidableEq, Repr

/-- Modelled from the spec: the role-name constants compared against in
`isRoleCorrect` (not under `src/`). -/
def roleRoot : String := "root"

/-- Modelled from the spec: role-name constant. -/
def roleSnapshot : String := "snapshot"

/-- Modelled from the spec: role-name constant. -/
def roleTimestamp : String := "timestamp"

/-- `isRoleCorrect` (`repo.go` lines 150-165): `true` means the function
returns normally, `false` means it panics
("Programmer error! Role name and role type mismatch."). -/
def isRoleCorrect (r : String) (s : FetchedValue) : Bool :=
  match s with
  | .rootValue => r == roleRoot
  | .targetsValue => r == roleTargets
  | .timestampValue => r == roleTimestamp
  | .snapshotValue => r == roleSnapshot
  | .otherValue => false

/-! ## Local repository handle (`validatePath`, `newLocalRepo`) -/

/-- Outcome of `os.Stat` on a path, as `validatePath` distinguishes them.
`statDir` covers a directory and (since `os.Stat` follows symlinks) a
symlink to a directory; `statFile` an existing non-directory; `statNotExist`
an error with `os.IsNotExist(err)` true (and nil `FileInfo`); `statOtherErr`
any other stat error, e.g. a permission error (also with nil `FileInfo`). -/
inductive StatOutcome where
  | statDir
  | statFile
  | statNotExist
  | statOtherErr
deriving DecidableEq, Repr

/-- Result of a Go call that may return a value, return an error, or
panic. -/
inductive GoResult (α : Type) where
  | ok (a : α)
  | err (msg : String)
  | panicked (msg : String)
deriving DecidableEq, Repr

/-- Error-message wrapping, `errors.Wrap(err, msg)`. -/
def wrapErr (msg inner : String) : String := msg ++ ": " ++ inner

/-- The text of the `os.Stat` does-not-exist error. -/
def statNotExistMsg (p : String) : String := "stat " ++ p ++ ": no such file or directory"

/-- The runtime fault message for calling a method on a nil `FileInfo`. -/
def nilFileInfoMsg : String := "invalid memory address or nil pointer dereference"

/-- `validatePath` (`repo.go` lines 131-141): on `os.IsNotExist` return a
wrapped validation error; otherwise call `fi.IsDir()` — which, when `Stat`
failed with any other error, dereferences the nil `FileInfo` and panics —
and reject non-directories. -/
def validatePath (fs : String → StatOutcome) (repoPath : String) : GoResult Unit :=
  match fs repoPath with
  | .statNotExist => .err (wrapErr "tuf repo path validation failed" (statNotExistMsg repoPath))
  | .statOtherErr => .panicked nilFileInfoMsg
  | .statFile => .err ("tuf repo path " ++ quoteGo repoPath ++ " must be a directory")
  | .statDir => .ok ()

/-- The `localRepo` handle: owns the repository path. -/
structure localRepo where
  repoPath : String
deriving DecidableEq, Repr

/-- `localRepo.baseDir` (`repo.go` line 83). -/
def localRepo.baseDir (r : localRepo) : String := r.repoPath

/-- `newLocalRepo` (`repo.go` lines 92-103): validate the path (wrapping a
validation error with "new tuf repo"; a panic propagates) and on success
return the handle holding the path. -/
def newLocalRepo (fs : String → StatOutcome) (repoPath : String) : GoResult localRepo :=
  match validatePath fs repoPath with
  | .err e => .err (wrapErr "new tuf repo" e)
  | .panicked m => .panicked m
  | .ok _ => .ok { repoPath := repoPath }

/-! ## Fetch options (`repoOptions` and the `repoOption` mutators) -/

/-- Opaque stand-in for a value implementing the `tester` interface (only
its identity matters for the option-accumulation claims). -/
structure tester where
  id : Nat
deriving DecidableEq, Repr

/-- `repoOptions` (`repo.go` lines 28-40) with the embedded `rootOptions`
and `roleOptions` fields flattened to their promoted names. -/
structure repoOptions where
  version : Int
  expectedLength : Int
  tests : List tester
deriving DecidableEq, Repr

/-- `repoOption`, a functional mutator of `repoOptions`. -/
abbrev repoOption := repoOptions → repoOptions

/-- `withRootVersion` (`repo.go` lines 42-46). -/
def withRootVersion (version : Int) : repoOption :=
  fun opts => { opts with version := version }

/-- `withRoleExpectedLength` (`repo.go` lines 48-52). -/
def withRoleExpectedLength (len : Int) : repoOption :=
  fun opts => { opts with expectedLength := len }

/-- `withRoleTest` (`repo.go` lines 54-58): appends the tester. -/
def withRoleTest (t : tester) : repoOption :=
  fun opts => { opts with tests := opts.tests ++ [t] }

/-- A syntactic option call, for quantifying over sequences of the three
option constructors. -/
inductive OptCall where
  | rootVersion (v : Int)
  | roleExpectedLength (n : Int)
  | roleTest (t : tester)
deriving DecidableEq, Repr

/-- Interpretation of an option call as the `repoOption` it constructs. -/
def OptCall.interp : OptCall → repoOption
  | .rootVersion v => withRootVersion v
  | .roleExpectedLength n => withRoleExpectedLength n
  | .roleTest t => withRoleTest t

/-- Applying a sequence of options to an accumulator, the standard
`for _, opt := range opts { opt(&options) }` pattern consuming
`...repoOption` variadics. -/
def applyOpts (l : List OptCall) (o : repoOptions) : repoOptions :=
  l.foldl (fun acc c => c.interp acc) o

/-- Projection: the argument of a `rootVersion` call. -/
def rvArg : OptCall → Option Int
  | .rootVersion v => some v
  | _ => none

/-- Projection: the argument of a `roleExpectedLength` call. -/
def relArg : OptCall → Option Int
  | .roleExpectedLength n => some n
  | _ => none

/-- Projection: the argument of a `roleTest` call. -/
def testArg : OptCall → Option tester
  | .roleTest t => some t
  | _ => none

/-! ## Helper functions for stating traversal properties -/

/-- First fatal (non-sentinel) error in a fetch trace, with its message. -/
def firstFatal : List (String × Option TufErr) → Option String
  | [] => none
  | e :: t =>
    match e.2 with
    | some (.fetchFailed m) => some m
    | _ => firstFatal t

/-- The path-ownership map determined by replaying `RootTarget.append`'s
path merging over a role lookup in order. -/
def pathsOfLookup (l : List (String × Targets)) : List (String × Fim) :=
  l.foldl (fun acc x => x.2.paths.foldl fimInsert acc) []

/-- Lookup in an association list of path claims (first entry wins). -/
def fimLookup : List (String × Fim) → String → Option Fim
  | [], _ => none
  | e :: t, p => if e.1 = p then some e.2 else fimLookup t p

/-- The claim a targets role makes for a path: its first entry for it. -/
def claimOf (t : Targets) (p : String) : Option Fim := fimLookup t.paths p

/-- The first claim for a path across a role lookup, in lookup order. -/
def lookupAcross : List (String × Targets) → String → Option Fim
  | [], _ => none
  | x :: t, p =>
    match claimOf x.2 p with
    | some f => some f
    | none => lookupAcross t p

/-! ## Postconditions of one traversal step

`StepPost fuel st root out` collects every invariant of a
`getDelegatedTarget` call (or of a run of the delegation loop) needed by
the claims: the visited list only grows, stays capped and duplicate-free,
the role lookup mirrors the visited list, the path-ownership map stays the
first-visit-wins merge of the lookup, fuel exhaustion is unreachable while
the cap exceeds the visited count by less than the fuel, and the fetch
trace extension matches the step's outcome. -/

/-- Relation between a step's outcome and the fetch-trace segment the step
produced: a clean or sentinel outcome leaves no fatal entry, a fatal
outcome is the first fatal entry of the segment. -/
def TraceMatch : Option TufErr → List (String × Option TufErr) → Prop
  | none, dt => firstFatal dt = none
  | some .targetSeen, dt => firstFatal dt = none
  | some (.fetchFailed m), dt => firstFatal dt = some m
  | some .outOfFuel, _ => True

def StepPost (fuel : Nat) (st : FetchState) (root : RootTarget)
    (out : Option TufErr × RootTarget × FetchState) : Prop :=
  (∃ dv, out.2.2.visited = st.visited ++ dv) ∧
  (st.visited.length ≤ maxDelegationCount → out.2.2.visited.length ≤ maxDelegationCount) ∧
  (st.visited.Nodup → out.2.2.visited.Nodup) ∧
  (root.targetLookup.map Prod.fst = st.visited →
    out.2.1.targetLookup.map Prod.fst = out.2.2.visited) ∧
  (root.paths = pathsOfLookup root.targetLookup →
    out.2.1.paths = pathsOfLookup out.2.1.targetLookup) ∧
  (maxDelegationCount < st.visited.length + fuel → st.visited.length ≤ maxDelegationCount →
    out.1 ≠ some .outOfFuel) ∧
  (∃ dt, out.2.2.trace = st.trace ++ dt ∧ TraceMatch out.1 dt)

/-- The error component of a resolution result. -/
def errOf : Except TufErr RootTarget → Option TufErr
  | .ok _ => none
  | .error e => some e

/-- Postcondition of the top-level delegation loop of `targetTreeBuilder`. -/
def TreePost (fuel : Nat) (st : FetchState) (root : RootTarget)
    (out : Except TufErr RootTarget × FetchState) : Prop :=
  (st.visited.Nodup → out.2.visited.Nodup) ∧
  (maxDelegationCount < st.visited.length + fuel → st.visited.length ≤ maxDelegationCount →
    out.1 ≠ .error .outOfFuel) ∧
  (∀ rt, out.1 = .ok rt →
    (root.targetLookup.map Prod.fst = st.visited →
      rt.targetLookup.map Prod.fst = out.2.visited) ∧
    (root.paths = pathsOfLookup root.targetLookup →
      rt.paths = pathsOfLookup rt.targetLookup)) ∧
  (∃ dt, out.2.trace = st.trace ++ dt ∧ TraceMatch (errOf out.1) dt)

/-- Nonempty digit string followed by `.root`. -/
def digitDotRoot (s : String) : Prop :=
  ∃ l : List Char, l ≠ [] ∧ (∀ c ∈ l, digitB c = true) ∧ s.data = l ++ '.' :: "root".data

/-- The grammar the amended C6 claim states: `root | <digits>.root |
snapshot | timestamp | targets` with `<digits>` any nonempty string of
decimal digits (zero and leading zeros included). -/
def amendedRoleGrammar (s : String) : Prop :=
  s = "root" ∨ digitDotRoot s ∨ s = "snapshot" ∨ s = "timestamp" ∨ s = "targets"

/-- The claim's grammar for C6, stated from the spec's words: versioned
roots are `<positive-int>.root` with a positive decimal integer — read
charitably as a digit string of positive value (a digit string containing
a nonzero digit), so that only the leading-zeros question is left open and
zero itself is certainly excluded. -/
def positiveIntDotRoot (s : String) : Prop :=
  ∃ l : List Char, l ≠ [] ∧ (∀ c ∈ l, digitB c = true) ∧ (∃ c ∈ l, c ≠ '0') ∧
    s.data = l ++ '.' :: "root".data

/-- The role-name grammar exactly as claim C6 states it. -/
def specC6Grammar (s : String) : Prop :=
  s = "root" ∨ positiveIntDotRoot s ∨ s = "snapshot" ∨ s = "timestamp" ∨ s = "targets"

/-! ## Concrete delegation graphs used in the claim evaluations -/

/-- Names of fifty delegations, enough to hit `maxDelegationCount` once
the top-level `targets` role itself is counted. -/
def names50 : List String := (List.range maxDelegationCount).map (fun i => "d" ++ toString i)

/-- Delegation graph for C1: the top-level `targets` role directly
declares fifty delegations, each an existing role with no claims and no
further delegations. -/
def gCap : FetchSpec := fun n =>
  if n = roleTargets then .ok ⟨[], names50⟩
  else if names50.contains n then .ok ⟨[], []⟩
  else .error "missing"

/-- Delegation graph for C2: `targets` delegates to `A` then `B`, and `A`
also delegates to `B`, so the direct delegation to `B` is a revisit. -/
def gRevisit : FetchSpec := fun n =>
  if n = roleTargets then .ok ⟨[], ["A", "B"]⟩
  else if n = "A" then .ok ⟨[], ["B"]⟩
  else if n = "B" then .ok ⟨[], []⟩
  else .error "missing"

/-- Sequential-sibling graph for C3: `A` and `B` both claim path `p`,
`A` is visited first. -/
def gSeq : FetchSpec := fun n =>
  if n = roleTargets then .ok ⟨[], ["A", "B"]⟩
  else if n = "A" then .ok ⟨[("p", "fa")], []⟩
  else if n = "B" then .ok ⟨[("p", "fb"), ("q", "fq")], []⟩
  else .error "missing"

/-- The tree `targetTreeBuilder` returns on `gSeq`. -/
def rtSeq : RootTarget :=
  ⟨⟨[], ["A", "B"]⟩, [("p", "fa"), ("q", "fq")],
   [(roleTargets, ⟨[], ["A", "B"]⟩), ("A", ⟨[("p", "fa")], []⟩),
    ("B", ⟨[("p", "fb"), ("q", "fq")], []⟩)]⟩

/-- Diamond graph for C3: both `A` and `B` delegate to `C`; `C` (reached
through `A`) and `B` both claim path `p`, and `C` is visited first. -/
def gDia : FetchSpec := fun n =>
  if n = roleTargets then .ok ⟨[], ["A", "B"]⟩
  else if n = "A" then .ok ⟨[], ["C"]⟩
  else if n = "B" then .ok ⟨[("p", "fb")], ["C"]⟩
  else if n = "C" then .ok ⟨[("p", "fc")], []⟩
  else .error "missing"

/-- The tree `targetTreeBuilder` returns on `gDia`. -/
def rtDia : RootTarget :=
  ⟨⟨[], ["A", "B"]⟩, [("p", "fc")],
   [(roleTargets, ⟨[], ["A", "B"]⟩), ("A", ⟨[], ["C"]⟩),
    ("C", ⟨[("p", "fc")], []⟩), ("B", ⟨[("p", "fb")], ["C"]⟩)]⟩

/-- Cyclic graph for C4: `targets` delegates to `A`, `A` to `B`, `B` back
to `A`. -/
def gAB : FetchSpec := fun n =>
  if n = roleTargets then .ok ⟨[], ["A"]⟩
  else if n = "A" then .ok ⟨[], ["B"]⟩
  else if n = "B" then .ok ⟨[], ["A"]⟩
  else .error "missing"

/-- The tree `targetTreeBuilder` returns on `gAB`. -/
def rtAB : RootTarget :=
  ⟨⟨[], ["A"]⟩, [],
   [(roleTargets, ⟨[], ["A"]⟩), ("A", ⟨[], ["B"]⟩), ("B", ⟨[], ["A"]⟩)]⟩

/-- Graph for the C5 witness: the delegate fetch of `A` fails fatally. -/
def gBoom : FetchSpec := fun n =>
  if n = roleTargets then .ok ⟨[], ["A"]⟩ else .error "boom"

/-- Graph for the C5 witness: even the top-level fetch fails. -/
def gNoTop : FetchSpec := fun _ => .error "no targets"

/-- The role-to-type correspondence exactly as claim C7 states it: a Root
value corresponds to `root` or a versioned-root name, a Targets value to
`targets` or a delegated (non-top-level) role name, a Timestamp value to
`timestamp`, a Snapshot value to `snapshot`, and other values to nothing.
Stated from the claim's words, for comparison with `isRoleCorrect`. -/
def claimC7Expected (r : String) (v : FetchedValue) : Prop :=
  match v with
  | .rootValue => r = "root" ∨ positiveIntDotRoot r
  | .targetsValue => r = "targets" ∨ ¬ roleRegexLang r
  | .timestampValue => r = "timestamp"
  | .snapshotValue => r = "snapshot"
  | .otherValue => False

/-! ## Lemmas about the path-ownership map -/

theorem fimLookup_append_some {a : List (String × Fim)} {p : String} {f : Fim}
    (h : fimLookup a p = some f) (b : List (String × Fim)) :
    fimLookup (a ++ b) p = some f := by
  induction a with
  | nil => simp [fimLookup] at h
  | cons e t ih =>
    by_cases hp : e.1 = p
    · simp [fimLookup, hp] at h ⊢
      exact h
    · simp [fimLookup, hp] at h ⊢
      exact ih h

theorem fimLookup_append_none {a : List (String × Fim)} {p : String}
    (h : fimLookup a p = none) (b : List (String × Fim)) :
    fimLookup (a ++ b) p = fimLookup b p := by
  induction a with
  | nil => simp
  | cons e t ih =>
    by_cases hp : e.1 = p
    · simp [fimLookup, hp] at h
    · simp [fimLookup, hp] at h ⊢
      exact ih h

theorem fimAny_eq_isSome (m : List (String × Fim)) (k : String) :
    (m.any fun q => q.1 = k) = (fimLookup m k).isSome := by
  induction m with
  | nil => simp [fimLookup]
  | cons e t ih =>
    by_cases hk : e.1 = k
    · simp [fimLookup, hk]
    · simp [fimLookup, hk, ih]

theorem fimLookup_insert_some {m : List (String × Fim)} {p : String} {f : Fim}
    (h : fimLookup m p = some f) (e : String × Fim) :
    fimLookup (fimInsert m e) p = some f := by
  unfold fimInsert
  split
  · exact h
  · exact fimLookup_append_some h _

theorem fimLookup_insert_none {m : List (String × Fim)} {p : String}
    (h : fimLookup m p = none) (e : String × Fim) :
    fimLookup (fimInsert m e) p = if e.1 = p then some e.2 else none := by
  unfold fimInsert
  split
  · next hany =>
    rw [fimAny_eq_isSome] at hany
    by_cases hp : e.1 = p
    · rw [hp] at hany
      rw [h] at hany
      simp at hany
    · simp [hp, h]
  · rw [fimLookup_append_none h]
    simp [fimLookup]

theorem fimLookup_foldl_some {m : List (String × Fim)} {p : String} {f : Fim}
    (h : fimLookup m p = some f) (ps : List (String × Fim)) :
    fimLookup (ps.foldl fimInsert m) p = some f := by
  induction ps generalizing m with
  | nil => exact h
  | cons e t ih => exact ih (fimLookup_insert_some h e)

theorem fimLookup_foldl_none {m : List (String × Fim)} {p : String}
    (h : fimLookup m p = none) (ps : List (String × Fim)) :
    fimLookup (ps.foldl fimInsert m) p = fimLookup ps p := by
  induction ps generalizing m with
  | nil => exact h
  | cons e t ih =>
    by_cases hp : e.1 = p
    · have : fimLookup (fimInsert m e) p = some e.2 := by
        rw [fimLookup_insert_none h, if_pos hp]
      simp only [List.foldl_cons, fimLookup, hp, if_pos]
      exact fimLookup_foldl_some this t
    · have : fimLookup (fimInsert m e) p = none := by
        rw [fimLookup_insert_none h, if_neg hp]
      simp only [List.foldl_cons, fimLookup, hp, if_neg, ite_false]
      exact ih this

theorem fimLookup_rolesFoldl_some {m : List (String × Fim)} {p : String} {f : Fim}
    (h : fimLookup m p = some f) (l : List (String × Targets)) :
    fimLookup (l.foldl (fun acc x => x.2.paths.foldl fimInsert acc) m) p = some f := by
  induction l generalizing m with
  | nil => exact h
  | cons x t ih => exact ih (fimLookup_foldl_some h x.2.paths)

theorem fimLookup_rolesFoldl_none {m : List (String × Fim)} {p : String}
    (h : fimLookup m p = none) (l : List (String × Targets)) :
    fimLookup (l.foldl (fun acc x => x.2.paths.foldl fimInsert acc) m) p = lookupAcross l p := by
  induction l generalizing m with
  | nil => exact h
  | cons x t ih =>
    rcases hx : claimOf x.2 p with _ | f
    · have hnone : fimLookup (x.2.paths.foldl fimInsert m) p = none := by
        rw [fimLookup_foldl_none h x.2.paths]
        exact hx
      simp only [List.foldl_cons, lookupAcross, hx]
      exact ih hnone
    · have hsome : fimLookup (x.2.paths.foldl fimInsert m) p = some f := by
        rw [fimLookup_foldl_none h x.2.paths]
        exact hx
      simp only [List.foldl_cons, lookupAcross, hx]
      exact fimLookup_rolesFoldl_some hsome t

/-- The first-visit-wins map determined by a lookup resolves each path to
the first claim for it across the lookup, in lookup order. -/
theorem fimLookup_pathsOfLookup (l : List (String × Targets)) (p : String) :
    fimLookup (pathsOfLookup l) p = lookupAcross l p :=
  fimLookup_rolesFoldl_none (rfl : fimLookup [] p = none) l

theorem lookupAcross_append_none {a : List (String × Targets)} {p : String}
    (h : ∀ x ∈ a, claimOf x.2 p = none) (b : List (String × Targets)) :
    lookupAcross (a ++ b) p = lookupAcross b p := by
  induction a with
  | nil => simp
  | cons x t ih =>
    have hx : claimOf x.2 p = none := h x (List.mem_cons_self x t)
    simp only [List.cons_append, lookupAcross, hx]
    exact ih fun y hy => h y (List.mem_cons_of_mem x hy)

theorem pathsOfLookup_append_single (l : List (String × Targets)) (n : String) (t : Targets) :
    pathsOfLookup (l ++ [(n, t)]) = t.paths.foldl fimInsert (pathsOfLookup l) := by
  simp [pathsOfLookup, List.foldl_append]

/-! ## Trace lemmas -/

theorem firstFatal_append_none {a : List (String × Option TufErr)}
    (h : firstFatal a = none) (b : List (String × Option TufErr)) :
    firstFatal (a ++ b) = firstFatal b := by
  induction a with
  | nil => simp
  | cons e t ih =>
    rcases he : e.2 with _ | err
    · simp only [firstFatal, he] at h ⊢
      exact ih h
    · cases err with
      | targetSeen =>
        simp only [firstFatal, he] at h ⊢
        exact ih h
      | fetchFailed m => simp [firstFatal, he] at h
      | outOfFuel =>
        simp only [firstFatal, he] at h ⊢
        exact ih h

theorem TraceMatch.prepend_benign {r : Option TufErr} {dt1 dt2 : List (String × Option TufErr)}
    (h1 : firstFatal dt1 = none) (h : TraceMatch r dt2) : TraceMatch r (dt1 ++ dt2) := by
  cases r with
  | none => simpa [TraceMatch, firstFatal_append_none h1] using h
  | some e =>
    cases e with
    | targetSeen => simpa [TraceMatch, firstFatal_append_none h1] using h
    | fetchFailed m => simpa [TraceMatch, firstFatal_append_none h1] using h
    | outOfFuel => trivial

theorem StepPost.triv (fuel : Nat) (st : FetchState) (root : RootTarget) :
    StepPost fuel st root (none, root, st) := by
  refine ⟨⟨[], by simp⟩, fun h => h, fun h => h, fun h => h, fun h => h,
    fun _ _ => by simp, ⟨[], by simp, rfl⟩⟩

theorem StepPost.comp {fuel : Nat} {st st1 st2 : FetchState} {root root1 root2 : RootTarget}
    {r1 r2 : Option TufErr}
    (h1 : StepPost fuel st root (r1, root1, st1))
    (h2 : StepPost fuel st1 root1 (r2, root2, st2))
    (hben : r1 = none ∨ r1 = some .targetSeen) :
    StepPost fuel st root (r2, root2, st2) := by
  obtain ⟨⟨dv1, hdv1⟩, hcap1, hnd1, hlk1, hpi1, _, ⟨dt1, hdt1, htm1⟩⟩ := h1
  obtain ⟨⟨dv2, hdv2⟩, hcap2, hnd2, hlk2, hpi2, hfu2, ⟨dt2, hdt2, htm2⟩⟩ := h2
  refine ⟨⟨dv1 ++ dv2, by rw [hdv2, hdv1, List.append_assoc]⟩,
    fun h => hcap2 (hcap1 h), fun h => hnd2 (hnd1 h),
    fun h => hlk2 (hlk1 h), fun h => hpi2 (hpi1 h), ?_,
    ⟨dt1 ++ dt2, by rw [hdt2, hdt1, List.append_assoc], ?_⟩⟩
  · intro hlt hle
    apply hfu2
    · have hmono : st.visited.length ≤ st1.visited.length := by
        rw [hdv1]; simp
      omega
    · exact hcap1 hle
  · have hft1 : firstFatal dt1 = none := by
      rcases hben with h | h <;> subst h <;> simpa [TraceMatch] using htm1
    exact TraceMatch.prepend_benign hft1 htm2

/-- A fetch that returned an error leaves the tree and visited list
untouched and adds one trace entry. -/
theorem StepPost.fetchErr (fuel : Nat) (st : FetchState) (root : RootTarget)
    (name : String) (e : TufErr) (he : e ≠ TufErr.outOfFuel)
    (htm : TraceMatch (some e) [(name, some e)]) :
    StepPost fuel st root
      (some e, root, { st with trace := st.trace ++ [(name, some e)] }) := by
  refine ⟨⟨[], by simp⟩, fun h => h, fun h => h, fun h => h, fun h => h,
    fun _ _ => by simpa using he, ⟨[(name, some e)], rfl, htm⟩⟩

/-- Lifting the delegation-loop postcondition over a successful fetch of a
new role back to the calling `getDelegatedTarget`. -/
theorem StepPost.fetchOk {fuel : Nat} {st : FetchState} {root : RootTarget} {name : String}
    {t : Targets} {out : Option TufErr × RootTarget × FetchState}
    (hmem : name ∉ st.visited) (hlt : st.visited.length < maxDelegationCount)
    (hloop : StepPost fuel
      ⟨st.visited ++ [name], st.trace ++ [(name, none)]⟩ (root.append name t) out) :
    StepPost (fuel + 1) st root out := by
  obtain ⟨⟨dv, hdv⟩, hcap, hnd, hlk, hpi, hfu, ⟨dt, hdt, htm⟩⟩ := hloop
  refine ⟨⟨name :: dv, by simpa [List.append_assoc] using hdv⟩, ?_, ?_, ?_, ?_, ?_, ?_⟩
  · intro _
    apply hcap
    simp only [List.length_append, List.length_cons, List.length_nil]
    omega
  · intro h
    apply hnd
    simp [List.nodup_append, h, hmem]
  · intro h
    apply hlk
    simp [RootTarget.append, h]
  · intro h
    apply hpi
    simp [RootTarget.append, pathsOfLookup_append_single, h]
  · intro h1 _
    apply hfu
    · simp only [List.length_append, List.length_cons, List.length_nil]
      omega
    · simp only [List.length_append, List.length_cons, List.length_nil]
      omega
  · refine ⟨(name, none) :: dt, by simpa [List.append_assoc] using hdt, ?_⟩
    exact TraceMatch.prepend_benign (rfl : firstFatal [(name, none)] = none) htm

/-- Unfolding the delegation loop at a cons cell. -/
theorem delegationLoop_cons
    (step : String → FetchState → RootTarget → Option TufErr × RootTarget × FetchState)
    (st : FetchState) (root : RootTarget) (name : String) (rest : List String) :
    delegationLoop step st root (name :: rest) =
      match step name st root with
      | (some .targetSeen, root', st') => delegationLoop step st' root' rest
      | (some (.fetchFailed m), root', st') => (some (.fetchFailed m), root', st')
      | (some .outOfFuel, root', st') => (some .outOfFuel, root', st')
      | (none, root', st') => delegationLoop step st' root' rest := rfl

theorem delegationLoop_post
    (step : String → FetchState → RootTarget → Option TufErr × RootTarget × FetchState)
    (fuel : Nat)
    (hstep : ∀ n st root, StepPost fuel st root (step n st root)) :
    ∀ (l : List String) (st : FetchState) (root : RootTarget),
      StepPost fuel st root (delegationLoop step st root l) := by
  intro l
  induction l with
  | nil => intro st root; exact StepPost.triv fuel st root
  | cons name rest ih =>
    intro st root
    rcases h : step name st root with ⟨r1, root1, st1⟩
    have h1 := hstep name st root
    rw [h] at h1
    rw [delegationLoop_cons, h]
    match r1 with
    | some .targetSeen => exact StepPost.comp h1 (ih st1 root1) (Or.inr rfl)
    | some (.fetchFailed m) => exact h1
    | some .outOfFuel => exact h1
    | none => exact StepPost.comp h1 (ih st1 root1) (Or.inl rfl)

theorem getDelegatedTarget_post (g : FetchSpec) :
    ∀ (fuel : Nat) (st : FetchState) (root : RootTarget) (name : String),
      StepPost fuel st root (getDelegatedTarget g fuel st root name) := by
  intro fuel
  induction fuel with
  | zero =>
    intro st root name
    show StepPost 0 st root (some .outOfFuel, root, st)
    exact ⟨⟨[], by simp⟩, fun h => h, fun h => h, fun h => h, fun h => h,
      fun h1 h2 => absurd h1 (by omega), ⟨[], by simp, trivial⟩⟩
  | succ fuel ih =>
    intro st root name
    show StepPost (fuel + 1) st root
      (match fetchRole g st name with
        | (.error e, st') => (some e, root, st')
        | (.ok target, st') =>
            delegationLoop (fun n s r => getDelegatedTarget g fuel s r n)
              st' (root.append name target) target.delegations)
    by_cases hmem : name ∈ st.visited
    · have hfetch : fetchRole g st name =
          (.error .targetSeen, { st with trace := st.trace ++ [(name, some .targetSeen)] }) := by
        simp [fetchRole, hmem]
      rw [hfetch]
      exact StepPost.fetchErr _ st root name .targetSeen (by simp)
        (rfl : firstFatal [(name, some .targetSeen)] = none)
    · by_cases hcap : maxDelegationCount ≤ st.visited.length
      · have hfetch : fetchRole g st name =
            (.error .targetSeen, { st with trace := st.trace ++ [(name, some .targetSeen)] }) := by
          simp [fetchRole, hmem, hcap]
        rw [hfetch]
        exact StepPost.fetchErr _ st root name .targetSeen (by simp)
          (rfl : firstFatal [(name, some .targetSeen)] = none)
      · rcases hg : g name with msg | t
        · have hfetch : fetchRole g st name =
              (.error (.fetchFailed msg),
               { st with trace := st.trace ++ [(name, some (.fetchFailed msg))] }) := by
            simp [fetchRole, hmem, hcap, hg]
          rw [hfetch]
          exact StepPost.fetchErr _ st root name (.fetchFailed msg) (by simp)
            (rfl : firstFatal [(name, some (.fetchFailed msg))] = some msg)
        · have hfetch : fetchRole g st name =
              (.ok t, ⟨st.visited ++ [name], st.trace ++ [(name, none)]⟩) := by
            simp [fetchRole, hmem, hcap, hg]
          rw [hfetch]
          have hloop := delegationLoop_post (fun n s r => getDelegatedTarget g fuel s r n)
            fuel (fun n s r => ih s r n) t.delegations
            ⟨st.visited ++ [name], st.trace ++ [(name, none)]⟩ (root.append name t)
          exact StepPost.fetchOk hmem (by omega) hloop

/-- Unfolding the top-level loop at a cons cell. -/
theorem topLevelLoop_cons
    (step : String → FetchState → RootTarget → Option TufErr × RootTarget × FetchState)
    (st : FetchState) (root : RootTarget) (name : String) (rest : List String) :
    topLevelLoop step st root (name :: rest) =
      match step name st root with
      | (some e, _, st') => (.error e, st')
      | (none, root', st') => topLevelLoop step st' root' rest := rfl

theorem topLevelLoop_post
    (step : String → FetchState → RootTarget → Option TufErr × RootTarget × FetchState)
    (fuel : Nat)
    (hstep : ∀ n st root, StepPost fuel st root (step n st root)) :
    ∀ (l : List String) (st : FetchState) (root : RootTarget),
      TreePost fuel st root (topLevelLoop step st root l) := by
  intro l
  induction l with
  | nil =>
    intro st root
    show TreePost fuel st root (.ok root, st)
    refine ⟨fun h => h, fun _ _ => by simp, ?_, ⟨[], by simp, rfl⟩⟩
    intro rt hrt
    have : root = rt := by injection hrt
    subst this
    exact ⟨fun h => h, fun h => h⟩
  | cons name rest ih =>
    intro st root
    rcases h : step name st root with ⟨r1, root1, st1⟩
    have h1 := hstep name st root
    rw [h] at h1
    obtain ⟨⟨dv1, hdv1⟩, hcap1, hnd1, hlk1, hpi1, hfu1, ⟨dt1, hdt1, htm1⟩⟩ := h1
    rw [topLevelLoop_cons, h]
    match r1 with
    | some e =>
      refine ⟨hnd1, ?_, ?_, ⟨dt1, hdt1, htm1⟩⟩
      · intro hlt hle hcontra
        have : e = .outOfFuel := by injection hcontra
        exact hfu1 hlt hle (by rw [this])
      · intro rt hrt
        cases hrt
    | none =>
      have h2 := ih st1 root1
      obtain ⟨hnd2, hfu2, hok2, ⟨dt2, hdt2, htm2⟩⟩ := h2
      refine ⟨fun hh => hnd2 (hnd1 hh), ?_, ?_, ?_⟩
      · intro hlt hle
        apply hfu2
        · have hmono : st.visited.length ≤ st1.visited.length := by
            rw [hdv1]; simp
          omega
        · exact hcap1 hle
      · intro rt hrt
        obtain ⟨hlk2, hpi2⟩ := hok2 rt hrt
        exact ⟨fun hh => hlk2 (hlk1 hh), fun hh => hpi2 (hpi1 hh)⟩
      · refine ⟨dt1 ++ dt2, by rw [hdt2, hdt1, List.append_assoc], ?_⟩
        have hft1 : firstFatal dt1 = none := by simpa [TraceMatch] using htm1
        exact TraceMatch.prepend_benign hft1 htm2

/-- Combined specification of `targetTreeBuilder`: fuel exhaustion is
unreachable (the modelled recursion terminates on the algorithm's own
checks), the result matches the fetch trace (a returned tree or a sentinel
abort leaves no fatal entry, a fatal result is the first fatal entry), a
returned tree's role lookup lists exactly the visited roles in visit order
without duplicates and its path-ownership map is the first-visit-wins
merge of the lookup, and a failure of the very first fetch is returned
verbatim. -/
theorem targetTreeBuilder_spec (g : FetchSpec) :
    (targetTreeBuilder g).1 ≠ .error .outOfFuel ∧
    TraceMatch (errOf (targetTreeBuilder g).1) (targetTreeBuilder g).2.trace ∧
    (∀ rt, (targetTreeBuilder g).1 = .ok rt →
      rt.targetLookup.map Prod.fst = (targetTreeBuilder g).2.visited ∧
      (targetTreeBuilder g).2.visited.Nodup ∧
      rt.paths = pathsOfLookup rt.targetLookup) ∧
    (∀ msg, g roleTargets = .error msg →
      targetTreeBuilder g =
        (.error (.fetchFailed msg), ⟨[], [(roleTargets, some (.fetchFailed msg))]⟩)) := by
  rcases hg : g roleTargets with msg | targ
  · have hb : targetTreeBuilder g =
        (.error (.fetchFailed msg), ⟨[], [(roleTargets, some (.fetchFailed msg))]⟩) := by
      simp [targetTreeBuilder, fetchRole, maxDelegationCount, hg]
    rw [hb]
    refine ⟨by simp, rfl, ?_, ?_⟩
    · intro rt hrt
      cases hrt
    · intro msg' hmsg'
      have : msg = msg' := by injection hmsg'
      rw [this]
  · have hb : targetTreeBuilder g =
        topLevelLoop (fun n s r => getDelegatedTarget g builderFuel s r n)
          ⟨[roleTargets], [(roleTargets, none)]⟩
          ((RootTarget.mk targ [] []).append roleTargets targ) targ.delegations := by
      simp [targetTreeBuilder, fetchRole, maxDelegationCount, hg]
    have htree := topLevelLoop_post (fun n s r => getDelegatedTarget g builderFuel s r n)
      builderFuel (fun n s r => getDelegatedTarget_post g builderFuel s r n)
      targ.delegations ⟨[roleTargets], [(roleTargets, none)]⟩
      ((RootTarget.mk targ [] []).append roleTargets targ)
    obtain ⟨hnd, hfu, hok, ⟨dt, hdt, htm⟩⟩ := htree
    rw [hb]
    refine ⟨?_, ?_, ?_, ?_⟩
    · exact hfu (by simp [builderFuel, maxDelegationCount]) (by simp [maxDelegationCount])
    · rw [hdt]
      exact TraceMatch.prepend_benign (rfl : firstFatal [(roleTargets, none)] = none) htm
    · intro rt hrt
      obtain ⟨hlk, hpi⟩ := hok rt hrt
      refine ⟨hlk (by simp [RootTarget.append]), hnd (by simp), ?_⟩
      apply hpi
      simp [RootTarget.append, pathsOfLookup]
    · intro msg hmsg
      simp at hmsg

/-! ## Role-name grammar lemmas (for C6 and C7) -/

/-- A run of digits followed by `.root` splits uniquely: `takeWhile` stops
exactly at the dot. -/
theorem digit_split (u w : List Char) (hu : ∀ c ∈ u, digitB c = true) :
    (u ++ '.' :: w).takeWhile digitB = u ∧ (u ++ '.' :: w).dropWhile digitB = '.' :: w := by
  have hdot : digitB '.' = false := by decide
  induction u with
  | nil => simp [List.takeWhile_cons, List.dropWhile_cons, hdot]
  | cons c t ih =>
    have hc : digitB c = true := hu c (List.mem_cons_self c t)
    have ht := ih fun x hx => hu x (List.mem_cons_of_mem c hx)
    simp [List.takeWhile_cons, List.dropWhile_cons, hc, ht.1, ht.2]

theorem matchVersionedRoot_eq_true_iff (s : String) :
    matchVersionedRoot s = true ↔ digitDotRoot s := by
  unfold matchVersionedRoot digitDotRoot
  rw [decide_eq_true_iff]
  constructor
  · rintro ⟨hne, hdrop⟩
    refine ⟨s.data.takeWhile digitB, hne, fun c hc => List.mem_takeWhile_imp hc, ?_⟩
    conv_lhs => rw [← List.takeWhile_append_dropWhile digitB s.data]
    rw [hdrop]
  · rintro ⟨l, hne, hdig, hs⟩
    have hsplit := digit_split l "root".data hdig
    rw [← hs] at hsplit
    exact ⟨by rw [hsplit.1]; exact hne, hsplit.2⟩

/-- The regex branch `[1-9]*[0-9]+` matches exactly the nonempty digit
strings (take the starred part empty for one direction; split off nothing
for the other), so `versionedRootLang` is the digit-string language. -/
theorem versionedRootLang_iff_digitDotRoot (s : String) :
    versionedRootLang s ↔ digitDotRoot s := by
  unfold versionedRootLang digitDotRoot
  constructor
  · rintro ⟨a, b, ha, hb, hbd, hs⟩
    refine ⟨a ++ b, by simp [hb], ?_, by simpa [List.append_assoc] using hs⟩
    intro c hc
    rcases List.mem_append.mp hc with h | h
    · have hnz := List.all_eq_true.mp ha c h
      unfold nzDigitB at hnz
      unfold digitB
      simp only [Bool.and_eq_true, decide_eq_true_eq] at hnz ⊢
      omega
    · exact List.all_eq_true.mp hbd c h
  · rintro ⟨l, hne, hdig, hs⟩
    exact ⟨[], l, by simp, hne, List.all_eq_true.mpr hdig, by simpa using hs⟩

/-- The executable matcher recognizes exactly the language of `roleRegex`. -/
theorem roleRegexMatch_eq_true_iff_lang (s : String) :
    roleRegexMatch s = true ↔ roleRegexLang s := by
  unfold roleRegexMatch roleRegexLang
  simp only [Bool.or_eq_true, beq_iff_eq, matchVersionedRoot_eq_true_iff,
    versionedRootLang_iff_digitDotRoot]
  tauto

/-- The language of `roleRegex`, simplified to the amended grammar. -/
theorem roleRegexLang_iff_amended (s : String) :
    roleRegexLang s ↔ amendedRoleGrammar s := by
  unfold roleRegexLang amendedRoleGrammar
  rw [versionedRootLang_iff_digitDotRoot]

/-! ## Claim theorems -/

/-- C1: evaluation of the code at the failing input.  On a graph whose
top-level `targets` role directly declares fifty delegations, visiting the
fiftieth delegate hits `maxDelegationCount` (the top-level role itself is
the fiftieth visited role); the fetcher's cap sentinel escapes
`targetTreeBuilder`'s loop — which, unlike `getDelegatedTarget`'s, has no
`errTargetSeen` case — so the whole resolution fails with the sentinel and
no tree is returned, while the claim (and the spec, and the TUF comment in
the code itself) require the remainder to be skipped silently and the
already-resolved tree returned.  The fetch bound itself does hold: exactly
`maxDelegationCount` roles were fetched. -/
theorem claim_C1_cap_eval :
    (targetTreeBuilder gCap).1 = .error .targetSeen ∧
    (targetTreeBuilder gCap).2.visited.length = maxDelegationCount := ⟨rfl, rfl⟩

/-- C2: evaluation of the code at the failing input.  On `gRevisit` the
direct delegation to `B` names an already-visited role (`B` was resolved
below `A`); the fetcher reports the `errTargetSeen` sentinel and
`targetTreeBuilder`'s loop, having no sentinel case, fails the whole
resolution with it — the claim says the revisit must be swallowed and
traversal continue, as `getDelegatedTarget`'s own loop does one level
deeper. -/
theorem claim_C2_top_revisit_eval :
    (targetTreeBuilder gRevisit).1 = .error .targetSeen ∧
    (targetTreeBuilder gRevisit).2.visited = [roleTargets, "A", "B"] := ⟨rfl, rfl⟩

/-- C3: first-visit-wins path precedence.  If a resolution returns a tree
whose role lookup (which lists the roles in preorder visit order) has role
`X` with metadata `tx` before role `Y` with metadata `ty`, no role visited
before `X` claims path `p`, `X` claims `p` with record `fx` and `Y` claims
`p` with record `fy`, then the path-ownership map resolves `p` to `X`'s
record and never to `Y`'s. -/
theorem claim_C3_first_visit_wins (g : FetchSpec) (rt : RootTarget) (p : String)
    (fx fy : Fim) (X Y : String) (tx ty : Targets)
    (pre mid tail : List (String × Targets))
    (hrun : (targetTreeBuilder g).1 = .ok rt)
    (hsplit : rt.targetLookup = pre ++ (X, tx) :: (mid ++ (Y, ty) :: tail))
    (hpre : ∀ z ∈ pre, claimOf z.2 p = none)
    (hX : claimOf tx p = some fx)
    (_hY : claimOf ty p = some fy) :
    fimLookup rt.paths p = some fx ∧ (fy ≠ fx → fimLookup rt.paths p ≠ some fy) := by
  obtain ⟨-, -, hok, -⟩ := targetTreeBuilder_spec g
  obtain ⟨-, -, hpaths⟩ := hok rt hrun
  have h1 : fimLookup rt.paths p = some fx := by
    rw [hpaths, fimLookup_pathsOfLookup, hsplit,
      lookupAcross_append_none hpre ((X, tx) :: (mid ++ (Y, ty) :: tail))]
    simp [lookupAcross, hX]
  refine ⟨h1, fun hne h2 => hne ?_⟩
  rw [h1] at h2
  exact (Option.some.inj h2).symm

/-- C3 witness: the sequential-sibling scenario (`A` before `B`, both
claiming `p`) resolves `p` to `A`'s record, and the diamond scenario (`C`
reached through `A` before the sibling `B`, both claiming `p`) resolves
`p` to `C`'s record; in neither case to `B`'s. -/
theorem claim_C3_witness :
    fimLookup rtSeq.paths "p" = some "fa" ∧ fimLookup rtSeq.paths "p" ≠ some "fb" ∧
    fimLookup rtDia.paths "p" = some "fc" ∧ fimLookup rtDia.paths "p" ≠ some "fb" := by
  have hseq := claim_C3_first_visit_wins gSeq rtSeq "p" "fa" "fb" "A" "B"
    ⟨[("p", "fa")], []⟩ ⟨[("p", "fb"), ("q", "fq")], []⟩
    [(roleTargets, ⟨[], ["A", "B"]⟩)] [] [] rfl rfl
    (by intro z hz; simp at hz; subst hz; rfl) rfl rfl
  have hdia := claim_C3_first_visit_wins gDia rtDia "p" "fc" "fb" "C" "B"
    ⟨[("p", "fc")], []⟩ ⟨[("p", "fb")], ["C"]⟩
    [(roleTargets, ⟨[], ["A", "B"]⟩), ("A", ⟨[], ["C"]⟩)] [] [] rfl rfl
    (by intro z hz; simp at hz; rcases hz with rfl | rfl <;> rfl) rfl rfl
  exact ⟨hseq.1, hseq.2 (by decide), hdia.1, hdia.2 (by decide)⟩

/-- C4: cycle termination and exactly-once visitation.  For every
delegation graph (cyclic ones included) the modelled recursion terminates
on the algorithm's own checks (the fuel bound of the embedding is never
hit), and whenever a tree is returned its role lookup lists each visited
role exactly once — its keys equal the fetcher's visited list (each role
fetched and recorded once, in visit order) and contain no duplicates. -/
theorem claim_C4_cycle_termination (g : FetchSpec) :
    (targetTreeBuilder g).1 ≠ .error .outOfFuel ∧
    ∀ rt, (targetTreeBuilder g).1 = .ok rt →
      (rt.targetLookup.map Prod.fst).Nodup ∧
      rt.targetLookup.map Prod.fst = (targetTreeBuilder g).2.visited := by
  obtain ⟨hnf, -, hok, -⟩ := targetTreeBuilder_spec g
  refine ⟨hnf, fun rt hrt => ?_⟩
  obtain ⟨hlk, hnd, -⟩ := hok rt hrt
  exact ⟨by rw [hlk]; exact hnd, hlk⟩

/-- C4 witness: on the `A`-`B` cycle the resolution terminates with a
tree in which `targets`, `A` and `B` each appear exactly once. -/
theorem claim_C4_witness :
    (targetTreeBuilder gAB).1 = .ok rtAB ∧
    rtAB.targetLookup.map Prod.fst = [roleTargets, "A", "B"] ∧
    (rtAB.targetLookup.map Prod.fst).Nodup ∧
    (targetTreeBuilder gAB).1 ≠ .error .outOfFuel := by
  refine ⟨rfl, rfl, ?_, ?_⟩
  · exact ((claim_C4_cycle_termination gAB).2 rtAB rfl).1
  · exact (claim_C4_cycle_termination gAB).1

/-- C5: no partial trees.  A failure of the top-level `targets` fetch is
returned by `targetTreeBuilder` exactly as the fetch produced it (no
tree), and whenever any fetch during the traversal failed fatally (a
non-sentinel failure appears in the fetch trace), the whole resolution
fails with the first such fatal error — the result type carries either an
error or a tree, never both, so no partial tree reaches the caller. -/
theorem claim_C5_no_partial_trees (g : FetchSpec) :
    (∀ e st', fetchRole g ⟨[], []⟩ roleTargets = (.error e, st') →
      targetTreeBuilder g = (.error e, st')) ∧
    (∀ m, firstFatal (targetTreeBuilder g).2.trace = some m →
      (targetTreeBuilder g).1 = .error (.fetchFailed m)) := by
  obtain ⟨hnf, htm, -, hfirst⟩ := targetTreeBuilder_spec g
  constructor
  · intro e st' hfe
    rcases hg : g roleTargets with msg | targ
    · have hf : fetchRole g ⟨[], []⟩ roleTargets =
          (.error (.fetchFailed msg), ⟨[], [(roleTargets, some (.fetchFailed msg))]⟩) := by
        simp [fetchRole, maxDelegationCount, hg]
      rw [hf] at hfe
      injection hfe with h1 h2
      have he : TufErr.fetchFailed msg = e := by injection h1
      subst he
      subst h2
      exact hfirst msg hg
    · have hf : fetchRole g ⟨[], []⟩ roleTargets =
          (.ok targ, ⟨[roleTargets], [(roleTargets, none)]⟩) := by
        simp [fetchRole, maxDelegationCount, hg]
      rw [hf] at hfe
      simp at hfe
  · intro m hm
    rcases hres : (targetTreeBuilder g).1 with e | rt
    · cases e with
      | targetSeen =>
        rw [hres] at htm
        simp only [errOf, TraceMatch] at htm
        rw [htm] at hm
        cases hm
      | fetchFailed mm =>
        rw [hres] at htm
        simp only [errOf, TraceMatch] at htm
        rw [htm] at hm
        have : mm = m := by injection hm
        rw [this]
      | outOfFuel => exact absurd hres hnf
    · rw [hres] at htm
      simp only [errOf, TraceMatch] at htm
      rw [htm] at hm
      cases hm

/-- C5 witness: with no fetchable `targets` role the resolution returns
the top-level fetch error; with a fatal delegate fetch (`A` fails with
"boom") the resolution fails with exactly that first fatal error. -/
theorem claim_C5_witness :
    targetTreeBuilder gNoTop =
      (.error (.fetchFailed "no targets"),
       ⟨[], [(roleTargets, some (.fetchFailed "no targets"))]⟩) ∧
    (targetTreeBuilder gBoom).1 = .error (.fetchFailed "boom") := by
  constructor
  · exact (claim_C5_no_partial_trees gNoTop).1 (.fetchFailed "no targets")
      ⟨[], [(roleTargets, some (.fetchFailed "no targets"))]⟩ rfl
  · exact (claim_C5_no_partial_trees gBoom).2 "boom" rfl

/-- C6 counterexample: the claim says `validateRole` succeeds exactly on
the grammar with a *positive* integer before `.root`, but the regex branch
`[1-9]*[0-9]+\.root` accepts any nonempty digit string — `"0.root"` is
accepted by the code while `0` is not a positive integer, so the claim as
stated is false at `"0.root"`. -/
theorem claim_C6_counterexample :
    validateRole "0.root" = .ok () ∧ ¬ specC6Grammar "0.root" := by
  constructor
  · rfl
  · rintro (h | ⟨l, hne, hdig, ⟨c, hcl, hcne⟩, hs⟩ | h | h | h)
    · exact absurd h (by decide)
    · have hsplit := digit_split l "root".data hdig
      rw [← hs] at hsplit
      have hl : l = ['0'] := by
        have ht := hsplit.1
        rw [show ("0.root".data.takeWhile digitB) = ['0'] from rfl] at ht
        exact ht.symm
      subst hl
      simp at hcl
      subst hcl
      exact hcne rfl
    · exact absurd h (by decide)
    · exact absurd h (by decide)
    · exact absurd h (by decide)

/-- C6 amended: `validateRole` succeeds exactly when the string matches
`root | <digits>.root | snapshot | timestamp | targets`, where `<digits>`
is any nonempty string of decimal digits (zero and leading zeros
included); every other string fails with the `is not a valid role` error
carrying the rejected string. -/
theorem claim_C6_role_grammar (s : String) :
    (validateRole s = .ok () ↔ amendedRoleGrammar s) ∧
    (¬ amendedRoleGrammar s → validateRole s = .error (quoteGo s ++ " is not a valid role")) := by
  have hm : roleRegexMatch s = true ↔ amendedRoleGrammar s := by
    rw [roleRegexMatch_eq_true_iff_lang, roleRegexLang_iff_amended]
  unfold validateRole
  by_cases h : roleRegexMatch s = true
  · rw [if_pos h]
    constructor
    · exact ⟨fun _ => hm.mp h, fun _ => rfl⟩
    · intro hg
      exact absurd (hm.mp h) hg
  · rw [if_neg h]
    constructor
    · constructor
      · intro hcontra
        cases hcontra
      · intro hg
        exact absurd (hm.mpr hg) h
    · intro _
      rfl

/-- C6 witness: `"7.root"` (a versioned root) is accepted; `"evil"` is
rejected with the error message carrying the string. -/
theorem claim_C6_witness :
    validateRole "7.root" = .ok () ∧
    validateRole "evil" = .error "\"evil\" is not a valid role" := by
  constructor
  · exact (claim_C6_role_grammar "7.root").1.mpr
      (Or.inr (Or.inl ⟨['7'], by decide, by decide, rfl⟩))
  · apply (claim_C6_role_grammar "evil").2
    rintro (h | ⟨l, hne, hdig, hs⟩ | h | h | h)
    · exact absurd h (by decide)
    · have := congrArg List.length hs
      simp at this
    · exact absurd h (by decide)
    · exact absurd h (by decide)
    · exact absurd h (by decide)

/-- C7 counterexample: the claim says a Root value paired with a
versioned-root name returns normally, but `isRoleCorrect` compares the
role name only against the exact constant `root`, so `("1.root", Root)`
panics (`hit` stays false) although the claim's mapping expects a normal
return. -/
theorem claim_C7_counterexample :
    claimC7Expected "1.root" FetchedValue.rootValue ∧
    isRoleCorrect "1.root" FetchedValue.rootValue = false := by
  constructor
  · exact Or.inr ⟨['1'], by decide, by decide, ⟨'1', by decide, by decide⟩, rfl⟩
  · rfl

/-- C7 amended: `isRoleCorrect` returns normally exactly when the value's
concrete type and the role name are one of the four exact pairs
(Root value with `root`, Targets value with `targets`, Timestamp value
with `timestamp`, Snapshot value with `snapshot`); every other
combination — versioned-root names, delegated names and foreign values
included — panics. -/
theorem claim_C7_role_type_check (r : String) (v : FetchedValue) :
    isRoleCorrect r v = true ↔
      (v = .rootValue ∧ r = roleRoot) ∨ (v = .targetsValue ∧ r = roleTargets) ∨
      (v = .timestampValue ∧ r = roleTimestamp) ∨ (v = .snapshotValue ∧ r = roleSnapshot) := by
  cases v <;> simp [isRoleCorrect]

/-- C7 witness: a matching pair returns normally, a mismatching pair
panics. -/
theorem claim_C7_witness :
    isRoleCorrect "timestamp" FetchedValue.timestampValue = true ∧
    isRoleCorrect "targets" FetchedValue.snapshotValue = false := by
  constructor
  · exact (claim_C7_role_type_check "timestamp" FetchedValue.timestampValue).mpr
      (Or.inr (Or.inr (Or.inl ⟨rfl, rfl⟩)))
  · rcases hb : isRoleCorrect "targets" FetchedValue.snapshotValue with _ | _
    · rfl
    · have hd := (claim_C7_role_type_check "targets" FetchedValue.snapshotValue).mp hb
      exact absurd hd (by decide)

/-- C8: local handle construction.  Against a path whose stat outcome is
does-not-exist, `newLocalRepo` returns a configuration error; against an
existing non-directory it returns a configuration error; against a
directory (a symlink to a directory stats as a directory, since `os.Stat`
follows symlinks) it succeeds and the handle's `baseDir` is exactly the
given path. -/
theorem claim_C8_local_repo_construction (fs : String → StatOutcome) (p : String) :
    (fs p = .statNotExist → ∃ m, newLocalRepo fs p = .err m) ∧
    (fs p = .statFile → ∃ m, newLocalRepo fs p = .err m) ∧
    (fs p = .statDir → ∃ r, newLocalRepo fs p = .ok r ∧ r.baseDir = p) := by
  refine ⟨?_, ?_, ?_⟩ <;> intro h
  · exact ⟨wrapErr "new tuf repo" (wrapErr "tuf repo path validation failed" (statNotExistMsg p)),
      by simp [newLocalRepo, validatePath, h]⟩
  · exact ⟨wrapErr "new tuf repo" ("tuf repo path " ++ quoteGo p ++ " must be a directory"),
      by simp [newLocalRepo, validatePath, h]⟩
  · exact ⟨⟨p⟩, by simp [newLocalRepo, validatePath, h], rfl⟩

/-- C8 witness: the three stat outcomes at a concrete path. -/
theorem claim_C8_witness :
    (∃ m, newLocalRepo (fun _ => .statNotExist) "/var/tuf" = .err m) ∧
    (∃ m, newLocalRepo (fun _ => .statFile) "/var/tuf" = .err m) ∧
    (∃ r, newLocalRepo (fun _ => .statDir) "/var/tuf" = .ok r ∧ r.baseDir = "/var/tuf") :=
  ⟨(claim_C8_local_repo_construction (fun _ => .statNotExist) "/var/tuf").1 rfl,
   (claim_C8_local_repo_construction (fun _ => .statFile) "/var/tuf").2.1 rfl,
   (claim_C8_local_repo_construction (fun _ => .statDir) "/var/tuf").2.2 rfl⟩

/-- Helper: `getLast?.getD` peels a cons into a new default. -/
theorem getLastD_cons {α : Type} (a d : α) (xs : List α) :
    (a :: xs).getLast?.getD d = xs.getLast?.getD a := by
  cases xs <;> simp [List.getLast?]

/-- What a sequence of option calls produces: the last pinned version (if
any), the last expected length (if any), and the testers appended in call
order. -/
theorem applyOpts_characterization (l : List OptCall) (o : repoOptions) :
    applyOpts l o =
      { version := (l.filterMap rvArg).getLast?.getD o.version,
        expectedLength := (l.filterMap relArg).getLast?.getD o.expectedLength,
        tests := o.tests ++ l.filterMap testArg } := by
  induction l generalizing o with
  | nil => simp [applyOpts]
  | cons c rest ih =>
    have hstep : applyOpts (c :: rest) o = applyOpts rest (c.interp o) := rfl
    rw [hstep, ih]
    cases c with
    | rootVersion v =>
      simp [OptCall.interp, withRootVersion, rvArg, relArg, testArg,
        List.filterMap_cons, getLastD_cons]
    | roleExpectedLength n =>
      simp [OptCall.interp, withRoleExpectedLength, rvArg, relArg, testArg,
        List.filterMap_cons, getLastD_cons]
    | roleTest t =>
      simp [OptCall.interp, withRoleTest, rvArg, relArg, testArg, List.filterMap_cons]

/-- C9: option order independence.  Any application sequence containing
exactly one `withRootVersion v` call, exactly one `withRoleExpectedLength
n` call, and `withRoleTest` calls for the testers `ts` in that relative
order — in whatever interleaving — produces the same `repoOptions` value:
version `v`, expected length `n`, and the testers accumulated in exactly
application order. -/
theorem claim_C9_option_order (l : List OptCall) (v n : Int) (ts : List tester)
    (hv : l.filterMap rvArg = [v]) (hn : l.filterMap relArg = [n])
    (ht : l.filterMap testArg = ts) :
    applyOpts l { version := 0, expectedLength := 0, tests := [] } =
      { version := v, expectedLength := n, tests := ts } := by
  rw [applyOpts_characterization, hv, hn, ht]
  simp

/-- C9 witness: two interleavings with the same tester order produce the
same options value. -/
theorem claim_C9_witness :
    applyOpts [OptCall.roleTest ⟨1⟩, OptCall.rootVersion 3, OptCall.roleTest ⟨2⟩,
        OptCall.roleExpectedLength 7, OptCall.roleTest ⟨3⟩]
      { version := 0, expectedLength := 0, tests := [] } =
      { version := 3, expectedLength := 7, tests := [⟨1⟩, ⟨2⟩, ⟨3⟩] } ∧
    applyOpts [OptCall.roleExpectedLength 7, OptCall.roleTest ⟨1⟩, OptCall.roleTest ⟨2⟩,
        OptCall.rootVersion 3, OptCall.roleTest ⟨3⟩]
      { version := 0, expectedLength := 0, tests := [] } =
      { version := 3, expectedLength := 7, tests := [⟨1⟩, ⟨2⟩, ⟨3⟩] } :=
  ⟨claim_C9_option_order _ 3 7 _ rfl rfl rfl,
   claim_C9_option_order _ 3 7 _ rfl rfl rfl⟩

/-- C10: `validatePath` is not total over stat outcomes.  When `os.Stat`
fails with an error that is not does-not-exist (a permission error, say),
the code falls past the `os.IsNotExist` test and calls `IsDir` on the nil
`FileInfo`, a nil-pointer panic; `newLocalRepo` therefore crashes instead
of returning a configuration error. -/
theorem claim_C10_stat_error_panics (fs : String → StatOutcome) (p : String)
    (h : fs p = .statOtherErr) :
    validatePath fs p = .panicked nilFileInfoMsg ∧
    newLocalRepo fs p = .panicked nilFileInfoMsg := by
  constructor
  · simp [validatePath, h]
  · simp [newLocalRepo, validatePath, h]

/-- C10 witness: a permission-style stat failure at a concrete path makes
construction panic. -/
theorem claim_C10_witness :
    newLocalRepo (fun _ => .statOtherErr) "/root/private" = .panicked nilFileInfoMsg :=
  (claim_C10_stat_error_panics (fun _ => .statOtherErr) "/root/private" rfl).2
